import Mathlib

/-!
Verification of the command-dispatch and build-lifecycle layer of
hugo-aide (`publish.ts`), via a shallow embedding.

Modelling conventions:

* External collaborators (the docopt argument parser, the glob expander,
  dynamic module loading, the shell runner, the filesystem, version
  resolution) are carried by a `World` record.  The glob expander is a
  function of a root directory and a pattern; the source calls
  `fs.expandGlobSync(glob)` without a root option, and the Deno standard
  library roots the expansion at the current working directory, so the
  embedding applies the expander to `World.cwd`.
* Console output, shell execution, hook invocation and filesystem removal
  are recorded as `Event`s in a trace.
* Hook default functions follow the `BuildLifecycleHandler` interface and
  return a promise: the body runs its effects `syncFx` up to its first
  suspension; the remaining work (`asyncFx`, and a rejection when
  `asyncRejects` is set) completes only when that promise is awaited.
  The source invokes the default function without awaiting the returned
  promise, so this remaining work is modelled as `pending` output,
  scheduled after the awaited chain of the surrounding operation — the
  execution in which every suspended hook resumes late, which the source
  permits because it never awaits these promises.
* Fallible steps (module load, argument parsing, `Deno.removeSync`,
  context factories, handlers) return `Except String`.
-/

set_option autoImplicit false

namespace HugoAide

/-- The build lifecycle step passed to hooks (source enum `BuildLifecycleStep`). -/
inductive BuildLifecycleStep where
  | prepare
  | finalize
  deriving DecidableEq, Repr

/-- One entry yielded by glob expansion: an absolute path together with the
`isFile` discriminator exposed by the glob collaborator. -/
structure GlobEntry where
  path : String
  isFile : Bool
  deriving DecidableEq, Repr

/-- A loadable hook module.  `hasDefault` is the `typeof module.default ===
"function"` test; the default function is an async function whose body emits
`syncFx` before its first suspension and `asyncFx` afterwards, and whose
returned promise rejects when `asyncRejects` is set. -/
structure HookModule where
  hasDefault : Bool
  syncFx : List String := []
  asyncFx : List String := []
  asyncRejects : Bool := false
  deriving DecidableEq, Repr

/-- The parsed option set produced by the docopt collaborator for the default
grammar: the two value options, the two flags, and the five command keys. -/
structure DocOptions where
  project : Option String := none
  buildHooks : Option String := none
  verbose : Bool := false
  dryRun : Bool := false
  prepareBuild : Bool := false
  build : Bool := false
  clean : Bool := false
  update : Bool := false
  version : Bool := false
  deriving DecidableEq, Repr

/-- The external world: current working directory, glob expansion
(root directory and pattern to entries), dynamic module loading (module URL to
module or load error), the set of existing filesystem paths, the outcome of
argument parsing, and the library version the version resolver would return. -/
structure World where
  cwd : String
  expandGlob : String → String → List GlobEntry
  loadModule : String → Except String HookModule
  files : List String := []
  parseOpts : Except String DocOptions := Except.error "no argv"
  hugoAideVersion : String := "v0.0.0"

/-- Observable events of one run: console output, load attempts, hook
invocations and their effects, shell commands, and filesystem removals. -/
inductive Event where
  | loadAttempt (url : String)
  | logImport (step : BuildLifecycleStep) (name : String)
  | logHookError (name : String) (msg : String)
  | logNoDefault (name : String)
  | hookInvoked (step : BuildLifecycleStep) (name : String)
  | hookFx (name : String) (fx : String)
  | hookAsyncFx (name : String) (fx : String)
  | hookRejected (name : String)
  | logExecuted (step : BuildLifecycleStep) (name : String)
  | logCmd (cmd : String)
  | shellExec (cmd : String)
  | shellDry (cmd : String)
  | fsRemove (path : String)
  | logDelete (name : String)
  | logDeleted (name : String)
  | logVersion (line : String)
  | invokeCustom (i : Nat)
  | invokeBuiltin (name : String)
  | unableToHandle
  | consoleError (msg : String)
  | note (s : String)
  deriving DecidableEq, Repr

/-- Events that a dry run must not produce: real shell execution, filesystem
removal, and any invocation of (or effect from) a hook default function. -/
def Event.dryForbidden : Event → Bool
  | .hookInvoked _ _ => true
  | .hookFx _ _ => true
  | .hookAsyncFx _ _ => true
  | .hookRejected _ => true
  | .shellExec _ => true
  | .fsRemove _ => true
  | _ => false

/-- `path.toFileUrl(p).toString()` for an absolute path. -/
def fileUrl (p : String) : String := "file://" ++ p

/-- Resolution of a relative path against a directory. -/
def joinPath (dir f : String) : String := dir ++ "/" ++ f

/-- String prefix test, computed over the character lists. -/
def strIsPrefixOf (pre s : String) : Bool := pre.data.isPrefixOf s.data

/-- Drop the first `n` characters of a string. -/
def strDropChars (s : String) (n : Nat) : String := String.mk (s.data.drop n)

/-- `path.relative(fromDir, p)`: strip the directory prefix when `p` lies
under `fromDir`, else keep `p`. -/
def relativePath (fromDir p : String) : String :=
  if strIsPrefixOf (fromDir ++ "/") p then strDropChars p (fromDir.length + 1)
  else p

/-- JavaScript string truthiness for optional string options: the empty
string is falsy. -/
def truthyStr : Option String → Option String
  | some "" => none
  | o => o

/-- The execution context (source class `PublishCommandHandlerContext`):
derived fields computed once at construction.  `version` stands for the
`chsOptions.version` the source reaches through the stored spec options. -/
structure PublishCommandHandlerContext where
  projectHome : String
  buildLifecyleHandlerGlob : String
  isVerbose : Bool
  isDryRun : Bool
  cliOptions : DocOptions
  version : String
  deriving DecidableEq, Repr

/-- The default constructor of `PublishCommandHandlerContext`:
`projectHome` falls back from the `--project` option to the spec-options
override to `Deno.cwd()` (JavaScript `||` fallback, so empty strings fall
through); the hook glob defaults likewise; `isDryRun` is the `--dry-run`
flag and `isVerbose` is implied by it. -/
def PublishCommandHandlerContext.make (w : World) (specProjectHome : Option String)
    (specVersion : String) (cli : DocOptions) : PublishCommandHandlerContext :=
  { projectHome :=
      match truthyStr cli.project with
      | some p => p
      | none =>
        match truthyStr specProjectHome with
        | some h => h
        | none => w.cwd
    buildLifecyleHandlerGlob :=
      match truthyStr cli.buildHooks with
      | some g => g
      | none => "**/*/pubctl-hook-build.ts"
    isDryRun := cli.dryRun
    isVerbose := cli.dryRun || cli.verbose
    cliOptions := cli
    version := specVersion }

/-- `reportShellCmd`: print the command when verbose and not dry-run. -/
def reportShellCmd (ctx : PublishCommandHandlerContext) (cmd : String) : List Event :=
  if ctx.isVerbose && !ctx.isDryRun then [Event.logCmd cmd] else []

/-- The shell runner collaborator: honours the `dryRun` option it is
handed — a dry run produces no real execution. -/
def runShellCommand (cmd : String) (dryRun : Bool) : List Event :=
  if dryRun then [Event.shellDry cmd] else [Event.shellExec cmd]

/-- `getPrepareBuildSubmoduleRelNames`: expand the hook glob (rooted at the
current working directory), keep regular files, and name each relative to
`projectHome`. -/
def getPrepareBuildSubmoduleRelNames (w : World)
    (ctx : PublishCommandHandlerContext) : List String :=
  ((w.expandGlob w.cwd ctx.buildLifecyleHandlerGlob).filter
    (fun we => we.isFile)).map (fun we => relativePath ctx.projectHome we.path)

/-- The per-entry loop body of `handleProjectBuildHooks`, over a list of glob
entries.  Returns the relative names pushed, the trace of the awaited chain,
and the pending work of un-awaited hook promises.  Per entry: skip non-files;
attempt the dynamic load (failures caught: logged, loop continues); report
the import when dry-run or verbose; skip invocation entirely on dry-run;
otherwise invoke the default function when present — without awaiting its
promise — or report loudly when absent; push the relative name regardless. -/
def runHookEntries (w : World) (ctx : PublishCommandHandlerContext)
    (step : BuildLifecycleStep) :
    List GlobEntry → List String × List Event × List Event
  | [] => ([], [], [])
  | we :: rest =>
    let tail := runHookEntries w ctx step rest
    if we.isFile then
      let name := relativePath ctx.projectHome we.path
      let url := fileUrl we.path
      match w.loadModule url with
      | Except.error msg =>
        (name :: tail.1,
         Event.loadAttempt url :: Event.logHookError name msg :: tail.2.1,
         tail.2.2)
      | Except.ok m =>
        let importLog :=
          if ctx.isDryRun || ctx.isVerbose then [Event.logImport step name] else []
        if ctx.isDryRun then
          (name :: tail.1, Event.loadAttempt url :: importLog ++ tail.2.1, tail.2.2)
        else if m.hasDefault then
          let syncEvents :=
            Event.hookInvoked step name :: m.syncFx.map (Event.hookFx name)
          let execLog := if ctx.isVerbose then [Event.logExecuted step name] else []
          let pend := m.asyncFx.map (Event.hookAsyncFx name) ++
            (if m.asyncRejects then [Event.hookRejected name] else [])
          (name :: tail.1,
           Event.loadAttempt url :: importLog ++ syncEvents ++ execLog ++ tail.2.1,
           pend ++ tail.2.2)
        else
          (name :: tail.1,
           Event.loadAttempt url :: importLog ++ Event.logNoDefault name :: tail.2.1,
           tail.2.2)
    else tail

/-- `handleProjectBuildHooks`: locate hook modules by expanding the hook glob
(rooted at the current working directory) and process each entry. -/
def handleProjectBuildHooks (w : World) (ctx : PublishCommandHandlerContext)
    (step : BuildLifecycleStep) : List String × List Event × List Event :=
  runHookEntries w ctx step (w.expandGlob w.cwd ctx.buildLifecyleHandlerGlob)

/-- `prepareBuild()`: run the hook batch for the `prepare` step. -/
def prepareBuild (w : World) (ctx : PublishCommandHandlerContext) :
    List String × List Event × List Event :=
  handleProjectBuildHooks w ctx BuildLifecycleStep.prepare

/-- `finalizeBuild()`: run the hook batch for the `finalize` step (the
source discards the returned name list). -/
def finalizeBuild (w : World) (ctx : PublishCommandHandlerContext) :
    List String × List Event × List Event :=
  handleProjectBuildHooks w ctx BuildLifecycleStep.finalize

/-- `build()`: prepare hooks, then the site-generation shell command, then
finalize hooks.  Returns the trace of the awaited chain and the pending work
of un-awaited hook promises. -/
def build (w : World) (ctx : PublishCommandHandlerContext) :
    List Event × List Event :=
  let pre := prepareBuild w ctx
  let shellT := reportShellCmd ctx "hugox" ++ runShellCommand "hugox" ctx.isDryRun
  let fin := finalizeBuild w ctx
  (pre.2.1 ++ shellT ++ fin.2.1, pre.2.2 ++ fin.2.2)

/-- `update()`: one dependency-update shell command parameterised with the
discovered hook module names. -/
def update (w : World) (ctx : PublishCommandHandlerContext) : List Event :=
  let cmd := "udd pubctl.ts " ++
    String.intercalate " " (getPrepareBuildSubmoduleRelNames w ctx)
  reportShellCmd ctx cmd ++ runShellCommand cmd ctx.isDryRun

/-- `fs.existsSync` on an already-resolved path. -/
def existsSync (w : World) (p : String) : Bool := w.files.contains p

/-- Recursive removal: drop the path itself and everything under it. -/
def removeAll (files : List String) (p : String) : List String :=
  files.filter (fun q => !(q == p || strIsPrefixOf (p ++ "/") q))

/-- `Deno.removeSync(p, recursive)`: throws when the path does not exist. -/
def removeSyncE (w : World) (p : String) : Except String World :=
  if existsSync w p then
    Except.ok { w with files := removeAll w.files p }
  else Except.error "NotFound"

/-- The fixed artifact set removed by `clean()`. -/
def cleanArtifacts : List String := ["go.sum", "public", "resources"]

/-- The artifact loop of `clean()`: each relative target is resolved against
the current working directory; when present it is reported (dry-run) or
removed recursively (and reported when verbose); when absent it is skipped. -/
def cleanTargets (w : World) (ctx : PublishCommandHandlerContext) :
    List String → Except String (List Event × World)
  | [] => Except.ok ([], w)
  | f :: rest =>
    let p := joinPath w.cwd f
    if existsSync w p then
      if ctx.isDryRun then
        (cleanTargets w ctx rest).map (fun r => (Event.logDelete f :: r.1, r.2))
      else
        match removeSyncE w p with
        | Except.error msg => Except.error msg
        | Except.ok w1 =>
          let delLog := if ctx.isVerbose then [Event.logDeleted f] else []
          (cleanTargets w1 ctx rest).map
            (fun r => (Event.fsRemove p :: delLog ++ r.1, r.2))
    else cleanTargets w ctx rest

/-- `clean()`: the module-clean shell command, then the artifact loop. -/
def cleanE (w : World) (ctx : PublishCommandHandlerContext) :
    Except String (List Event × World) :=
  let shellT := reportShellCmd ctx "hugox mod clean --all" ++
    runShellCommand "hugox mod clean --all" ctx.isDryRun
  (cleanTargets w ctx cleanArtifacts).map (fun r => (shellT ++ r.1, r.2))

/-- Outcome of one handler call: claimed the request (returned the truthy
sentinel), declined (returned nothing), or threw. -/
inductive HandlerRes where
  | claimed
  | declined
  | threw (msg : String)
  deriving DecidableEq, Repr

/-- A command handler: given the world and the context, produce the new
world, the trace of its awaited chain, the pending work of un-awaited hook
promises it started, and its outcome. -/
def HandlerFn : Type :=
  World → PublishCommandHandlerContext →
    World × List Event × List Event × HandlerRes

/-- `prepareBuildHandler`: claim when the `prepare-build` command key is
set, running the prepare hook batch; else decline. -/
def prepareBuildHandler : HandlerFn := fun w ctx =>
  if ctx.cliOptions.prepareBuild then
    let r := prepareBuild w ctx
    (w, r.2.1, r.2.2, HandlerRes.claimed)
  else (w, [], [], HandlerRes.declined)

/-- `buildHandler`: claim when the `build` command key is set. -/
def buildHandler : HandlerFn := fun w ctx =>
  if ctx.cliOptions.build then
    let r := build w ctx
    (w, r.1, r.2, HandlerRes.claimed)
  else (w, [], [], HandlerRes.declined)

/-- `cleanHandler`: claim when the `clean` command key is set. -/
def cleanHandler : HandlerFn := fun w ctx =>
  if ctx.cliOptions.clean then
    match cleanE w ctx with
    | Except.ok r => (r.2, r.1, [], HandlerRes.claimed)
    | Except.error msg => (w, [], [], HandlerRes.threw msg)
  else (w, [], [], HandlerRes.declined)

/-- `updateHandler`: claim when the `update` command key is set. -/
def updateHandler : HandlerFn := fun w ctx =>
  if ctx.cliOptions.update then
    (w, update w ctx, [], HandlerRes.claimed)
  else (w, [], [], HandlerRes.declined)

/-- `versionHandler`: claim when the `version` command key is set, printing
the tool version and the resolved library version. -/
def versionHandler : HandlerFn := fun w ctx =>
  if ctx.cliOptions.version then
    (w,
     [Event.logVersion ("pubctl " ++ ctx.version),
      Event.logVersion ("hugo-aide " ++ w.hugoAideVersion)],
     [], HandlerRes.claimed)
  else (w, [], [], HandlerRes.declined)

/-- The fixed built-in handler list `commonHandlers`, each paired with the
instrumentation event the dispatcher records when it calls the handler. -/
def commonHandlers : List (Event × HandlerFn) :=
  [(Event.invokeBuiltin "prepare-build", prepareBuildHandler),
   (Event.invokeBuiltin "build", buildHandler),
   (Event.invokeBuiltin "clean", cleanHandler),
   (Event.invokeBuiltin "update", updateHandler),
   (Event.invokeBuiltin "version", versionHandler)]

/-- The static spec options handed to `CLI` (source
`CommandHandlerSpecOptions`): provenance metadata, version string, optional
project-root override, custom handlers, and the optional context factory. -/
structure CommandHandlerSpecOptions where
  calledFromMetaURL : String := ""
  calledFromMain : Bool := true
  version : String
  projectHome : Option String := none
  customHandlers : List HandlerFn := []
  prepareContext : Option (World → DocOptions →
    Except String PublishCommandHandlerContext) := none

/-- One handler-resolution loop over a tagged handler list, faithful to the
source loop: the `handled` variable is reassigned by every call, the loop
breaks at the first truthy result, and a thrown error aborts the chain.
`handled0` is the value the variable keeps when the list is empty. -/
def runHandlerChain (ctx : PublishCommandHandlerContext) (handled0 : Bool) :
    World → List (Event × HandlerFn) →
    World × List Event × List Event × Except String Bool
  | w, [] => (w, [], [], Except.ok handled0)
  | w, (tag, h) :: rest =>
    let r := h w ctx
    match r.2.2.2 with
    | HandlerRes.claimed => (r.1, tag :: r.2.1, r.2.2.1, Except.ok true)
    | HandlerRes.threw msg => (r.1, tag :: r.2.1, r.2.2.1, Except.error msg)
    | HandlerRes.declined =>
      let t := runHandlerChain ctx false r.1 rest
      (t.1, tag :: r.2.1 ++ t.2.1, r.2.2.1 ++ t.2.2.1, t.2.2.2)

/-- The custom handler list tagged with per-index instrumentation events. -/
def taggedCustoms (hs : List HandlerFn) : List (Event × HandlerFn) :=
  hs.enum.map (fun p => (Event.invokeCustom p.1, p.2))

/-- Everything inside the `try` block of `CLI`: parse the arguments, build
the context (through the caller's factory when provided), run the custom
handler chain, then — unconditionally, as the source does — run the built-in
handler chain, and report an unhandled parse when the final `handled` value
is falsy.  The `Except` component carries an error escaping to the `catch`. -/
def CLIdispatch (w : World) (chs : CommandHandlerSpecOptions) :
    World × List Event × List Event × Except String Bool :=
  match w.parseOpts with
  | Except.error msg => (w, [], [], Except.error msg)
  | Except.ok cli =>
    let ctxE :=
      match chs.prepareContext with
      | some f => f w cli
      | none =>
        Except.ok (PublishCommandHandlerContext.make w chs.projectHome chs.version cli)
    match ctxE with
    | Except.error msg => (w, [], [], Except.error msg)
    | Except.ok ctx =>
      let c := runHandlerChain ctx false w (taggedCustoms chs.customHandlers)
      match c.2.2.2 with
      | Except.error msg => (c.1, c.2.1, c.2.2.1, Except.error msg)
      | Except.ok handledCustom =>
        let b := runHandlerChain ctx handledCustom c.1 commonHandlers
        match b.2.2.2 with
        | Except.error msg =>
          (b.1, c.2.1 ++ b.2.1, c.2.2.1 ++ b.2.2.1, Except.error msg)
        | Except.ok handled =>
          (b.1,
           c.2.1 ++ b.2.1 ++ (if handled then [] else [Event.unableToHandle]),
           c.2.2.1 ++ b.2.2.1,
           Except.ok handled)

/-- `CLI`: the dispatch body wrapped in the top-level `try`/`catch` that
logs the error message and returns normally. -/
def CLI (w : World) (chs : CommandHandlerSpecOptions) :
    World × List Event × List Event :=
  let d := CLIdispatch w chs
  match d.2.2.2 with
  | Except.error msg => (d.1, d.2.1 ++ [Event.consoleError msg], d.2.2.1)
  | Except.ok _ => (d.1, d.2.1, d.2.2.1)

/-- The discovery step shared by `getPrepareBuildSubmoduleRelNames` and
`handleProjectBuildHooks`: the absolute paths of the regular files yielded
by expanding the hook glob, which the source roots at the current working
directory. -/
def hookDiscoveryPaths (w : World) (ctx : PublishCommandHandlerContext) :
    List String :=
  ((w.expandGlob w.cwd ctx.buildLifecyleHandlerGlob).filter
    (fun we => we.isFile)).map (fun we => we.path)

/-- Modelled from the spec: the Hook Locator contract of the specification,
which is stated for a glob pattern and a project root — "produce the ordered
sequence of absolute file paths under the root that match the pattern and
are regular files".  The glob collaborator applied at the given root is the
oracle for matching under that root. -/
def specHookLocate (w : World) (root pattern : String) : List String :=
  ((w.expandGlob root pattern).filter (fun we => we.isFile)).map
    (fun we => we.path)

/-!
Concrete worlds, contexts and handlers used by counterexamples and
witnesses.
-/

/-- A world with no hook files, a successfully parsed all-false option set,
and a loader that always fails (it is never reached). -/
def wDispatch : World :=
  { cwd := "/w"
    expandGlob := fun _ _ => []
    loadModule := fun _ => Except.error "unused"
    parseOpts := Except.ok {} }

/-- A context whose project home coincides with the working directory of
`wDispatch`. -/
def ctxAtCwd : PublishCommandHandlerContext :=
  { projectHome := "/w"
    buildLifecyleHandlerGlob := "**/*/pubctl-hook-build.ts"
    isVerbose := false
    isDryRun := false
    cliOptions := {}
    version := "v1" }

/-- A custom handler that always claims the request. -/
def claimingHandler : HandlerFn := fun w _ =>
  (w, [Event.note "custom-claimed"], [], HandlerRes.claimed)

/-- A custom handler placed after `claimingHandler`; were it invoked, its
note would appear in the trace. -/
def laterHandler : HandlerFn := fun w _ =>
  (w, [Event.note "later-custom"], [], HandlerRes.claimed)

/-- Spec options with two custom handlers, the first of which claims. -/
def chsCustomClaim : CommandHandlerSpecOptions :=
  { version := "v1", customHandlers := [claimingHandler, laterHandler] }

/-- A world whose glob expansion is sensitive to the root it is applied at:
rooted at the working directory it finds one hook file, rooted anywhere else
it finds none. -/
def globRootWorld : World :=
  { cwd := "/w"
    expandGlob := fun root _ =>
      if root == "/w" then [{ path := "/w/x/pubctl-hook-build.ts", isFile := true }]
      else []
    loadModule := fun _ => Except.error "unused" }

/-- A context whose project home differs from the working directory. -/
def ctxOtherHome : PublishCommandHandlerContext :=
  { projectHome := "/p"
    buildLifecyleHandlerGlob := "**/*/pubctl-hook-build.ts"
    isVerbose := false
    isDryRun := false
    cliOptions := {}
    version := "v1" }

/-- A world with a single prepare/finalize hook whose default function
performs work after its first suspension. -/
def hookWorldAsync : World :=
  { cwd := "/p"
    expandGlob := fun _ _ =>
      [{ path := "/p/sub/pubctl-hook-build.ts", isFile := true }]
    loadModule := fun _ =>
      Except.ok { hasDefault := true, asyncFx := ["write-generated-assets"] } }

/-- A world with three hook files: one whose load fails, one whose default
function rejects, and one well-behaved hook with a synchronous side
effect. -/
def hookWorldMixed : World :=
  { cwd := "/p"
    expandGlob := fun _ _ =>
      [{ path := "/p/bad/pubctl-hook-build.ts", isFile := true },
       { path := "/p/rej/pubctl-hook-build.ts", isFile := true },
       { path := "/p/good/pubctl-hook-build.ts", isFile := true }]
    loadModule := fun url =>
      if url == "file:///p/bad/pubctl-hook-build.ts" then
        Except.error "SyntaxError"
      else if url == "file:///p/rej/pubctl-hook-build.ts" then
        Except.ok { hasDefault := true, asyncRejects := true }
      else Except.ok { hasDefault := true, syncFx := ["good-side-effect"] } }

/-- A context at project home `/p`, matching the worlds above. -/
def ctxAtP : PublishCommandHandlerContext :=
  { projectHome := "/p"
    buildLifecyleHandlerGlob := "**/*/pubctl-hook-build.ts"
    isVerbose := false
    isDryRun := false
    cliOptions := {}
    version := "v1" }

/-!
Helper lemmas shared between claims.
-/

/-- The name list returned by the hook loop is the relative name of every
regular-file entry, in discovery order, whatever each hook does. -/
theorem runHookEntries_names (w : World) (ctx : PublishCommandHandlerContext)
    (step : BuildLifecycleStep) (es : List GlobEntry) :
    (runHookEntries w ctx step es).1 =
      (es.filter (fun we => we.isFile)).map
        (fun we => relativePath ctx.projectHome we.path) := by
  induction es with
  | nil => rfl
  | cons we rest ih =>
    cases hf : we.isFile with
    | false => simp [runHookEntries, hf, ih]
    | true =>
      cases hm : w.loadModule (fileUrl we.path) with
      | error msg => simp [runHookEntries, hf, hm, ih]
      | ok m =>
        by_cases hd : ctx.isDryRun <;> by_cases hdef : m.hasDefault <;>
          simp [runHookEntries, hf, hm, hd, hdef, ih]

/-- When the expansion yields no regular file, the hook loop does nothing. -/
theorem runHookEntries_no_files (w : World) (ctx : PublishCommandHandlerContext)
    (step : BuildLifecycleStep) (es : List GlobEntry)
    (h : es.filter (fun we => we.isFile) = []) :
    runHookEntries w ctx step es = ([], [], []) := by
  induction es with
  | nil => rfl
  | cons we rest ih =>
    cases hf : we.isFile with
    | true => simp [List.filter_cons, hf] at h
    | false =>
      rw [List.filter_cons] at h
      simp only [hf, Bool.false_eq_true, if_neg, cond_false] at h
      simp [runHookEntries, hf, ih h]

/-- Filesystem-removal events. -/
def Event.isFsRemove : Event → Bool
  | .fsRemove _ => true
  | _ => false

/-- The hook batch outcome of a dry run: no dry-forbidden event in the
trace, and no pending hook work at all. -/
def dryPure (r : List String × List Event × List Event) : Prop :=
  r.2.1.all (fun e => !e.dryForbidden) = true ∧ r.2.2 = []

/-- The total value of the artifact loop of `clean()`.  The loop's guard
makes the removal error of `removeSyncE` unreachable, so the `Except`
version `cleanTargets` always computes this value (proved below). -/
def cleanRunT (w : World) (ctx : PublishCommandHandlerContext) :
    List String → List Event × World
  | [] => ([], w)
  | f :: rest =>
    let p := joinPath w.cwd f
    if existsSync w p then
      if ctx.isDryRun then
        let r := cleanRunT w ctx rest
        (Event.logDelete f :: r.1, r.2)
      else
        let w1 := { w with files := removeAll w.files p }
        let delLog := if ctx.isVerbose then [Event.logDeleted f] else []
        let r := cleanRunT w1 ctx rest
        (Event.fsRemove p :: delLog ++ r.1, r.2)
    else cleanRunT w ctx rest

/-- The artifact loop never throws: it always computes its total value. -/
theorem cleanTargets_eq_run (ctx : PublishCommandHandlerContext) :
    ∀ (L : List String) (w : World),
      cleanTargets w ctx L = Except.ok (cleanRunT w ctx L) := by
  intro L
  induction L with
  | nil => intro w; rfl
  | cons f rest ih =>
    intro w
    simp only [cleanTargets, cleanRunT]
    by_cases he : existsSync w (joinPath w.cwd f) <;>
      by_cases hd : ctx.isDryRun <;>
        simp [he, hd, removeSyncE, ih, Except.map]

/-- `clean()` never throws: it is the shell step followed by the total
value of the artifact loop. -/
theorem cleanE_eq_run (w : World) (ctx : PublishCommandHandlerContext) :
    cleanE w ctx = Except.ok
      (reportShellCmd ctx "hugox mod clean --all" ++
        runShellCommand "hugox mod clean --all" ctx.isDryRun ++
        (cleanRunT w ctx cleanArtifacts).1,
       (cleanRunT w ctx cleanArtifacts).2) := by
  simp [cleanE, cleanTargets_eq_run, Except.map]

/-- The artifact loop preserves the working directory and removes files
only (the final file set is a subset of the initial one). -/
theorem cleanRunT_world (ctx : PublishCommandHandlerContext) :
    ∀ (L : List String) (w : World),
      (cleanRunT w ctx L).2.cwd = w.cwd ∧
      ∀ q, q ∈ (cleanRunT w ctx L).2.files → q ∈ w.files := by
  intro L
  induction L with
  | nil => exact fun w => ⟨rfl, fun q hq => hq⟩
  | cons f rest ih =>
    intro w
    simp only [cleanRunT]
    by_cases he : existsSync w (joinPath w.cwd f)
    · by_cases hd : ctx.isDryRun
      · simpa [he, hd] using ih w
      · simp only [he, hd, if_true, if_false, Bool.false_eq_true]
        refine ⟨(ih _).1, fun q hq => ?_⟩
        have := (ih { w with files := removeAll w.files (joinPath w.cwd f) }).2 q hq
        simp only [removeAll, List.mem_filter] at this
        exact this.1
    · simpa [he] using ih w

/-- After a non-dry artifact loop, every target of the loop is absent. -/
theorem cleanRunT_removes (ctx : PublishCommandHandlerContext)
    (hd : ctx.isDryRun = false) :
    ∀ (L : List String) (w : World) (f : String), f ∈ L →
      joinPath w.cwd f ∉ (cleanRunT w ctx L).2.files := by
  intro L
  induction L with
  | nil => intro w f h; cases h
  | cons f0 rest ih =>
    intro w f hmem
    simp only [cleanRunT]
    by_cases he : existsSync w (joinPath w.cwd f0)
    · simp only [he, hd, if_true, if_false, Bool.false_eq_true]
      rcases List.mem_cons.mp hmem with heq | htail
      · subst heq
        intro hq
        have hsub := (cleanRunT_world ctx rest
          { w with files := removeAll w.files (joinPath w.cwd f) }).2 _ hq
        simp [removeAll, List.mem_filter] at hsub
      · have := ih { w with files := removeAll w.files (joinPath w.cwd f0) } f htail
        simpa using this
    · simp only [he, Bool.false_eq_true, if_false]
      rcases List.mem_cons.mp hmem with heq | htail
      · subst heq
        intro hq
        have hsub := (cleanRunT_world ctx rest w).2 _ hq
        exact he (List.elem_iff.mpr hsub)
      · exact ih w f htail

/-- When every target is absent, the artifact loop does nothing. -/
theorem cleanRunT_skips (ctx : PublishCommandHandlerContext) :
    ∀ (L : List String) (w : World),
      (∀ f ∈ L, existsSync w (joinPath w.cwd f) = false) →
      cleanRunT w ctx L = ([], w) := by
  intro L
  induction L with
  | nil => intro w _; rfl
  | cons f rest ih =>
    intro w h
    have hf := h f (List.mem_cons_self f rest)
    simp only [cleanRunT, hf, Bool.false_eq_true, if_false]
    exact ih w (fun g hg => h g (List.mem_cons_of_mem f hg))

/-- A dry artifact loop changes nothing, emits no dry-forbidden event, and
logs the intended deletion of every present target. -/
theorem cleanRunT_dry (ctx : PublishCommandHandlerContext)
    (hd : ctx.isDryRun = true) :
    ∀ (L : List String) (w : World),
      (cleanRunT w ctx L).2 = w ∧
      (cleanRunT w ctx L).1.all (fun e => !e.dryForbidden) = true ∧
      ∀ f ∈ L, existsSync w (joinPath w.cwd f) = true →
        Event.logDelete f ∈ (cleanRunT w ctx L).1 := by
  intro L
  induction L with
  | nil => exact fun w => ⟨rfl, rfl, fun f h => absurd h (List.not_mem_nil f)⟩
  | cons f rest ih =>
    intro w
    simp only [cleanRunT]
    by_cases he : existsSync w (joinPath w.cwd f)
    · simp only [he, hd, if_true]
      obtain ⟨hw, hall, hdel⟩ := ih w
      refine ⟨hw, ?_, ?_⟩
      · simpa [Event.dryForbidden] using hall
      · intro g hg _
        rcases List.mem_cons.mp hg with heq | htail
        · subst heq; exact List.mem_cons_self _ _
        · exact List.mem_cons_of_mem _ (hdel g htail (by
            rcases hmem : existsSync w (joinPath w.cwd g) with _ | _
            · exact (by
                rename_i hgx
                exact absurd hmem (by simp_all))
            · rfl))
    · simp only [he, Bool.false_eq_true, if_false]
      obtain ⟨hw, hall, hdel⟩ := ih w
      refine ⟨hw, hall, fun g hg hex => ?_⟩
      rcases List.mem_cons.mp hg with heq | htail
      · subst heq; rw [hex] at he; exact absurd rfl he
      · exact hdel g htail hex

/-- Every removal of the artifact loop is at a target resolved against the
working directory. -/
theorem cleanRunT_remove_targets (ctx : PublishCommandHandlerContext) :
    ∀ (L : List String) (w : World) (p : String),
      Event.fsRemove p ∈ (cleanRunT w ctx L).1 →
      p ∈ L.map (joinPath w.cwd) := by
  intro L
  induction L with
  | nil => intro w p h; cases h
  | cons f rest ih =>
    intro w p
    simp only [cleanRunT]
    by_cases he : existsSync w (joinPath w.cwd f)
    · by_cases hd : ctx.isDryRun
      · simp only [he, hd, if_true]
        intro h
        rcases List.mem_cons.mp h with heq | htail
        · cases heq
        · exact List.mem_cons_of_mem _ (ih w p htail)
      · simp only [he, hd, if_true, if_false, Bool.false_eq_true]
        intro h
        rcases List.mem_cons.mp h with heq | htail
        · rw [Event.fsRemove.injEq] at heq
          subst heq
          exact List.mem_cons_self _ _
        · rcases List.mem_append.mp htail with hlog | hrest
          · by_cases hv : ctx.isVerbose <;> simp [hv] at hlog
          · have := ih { w with files := removeAll w.files (joinPath w.cwd f) } p hrest
            exact List.mem_cons_of_mem _ this
    · simp only [he, Bool.false_eq_true, if_false]
      intro h
      exact List.mem_cons_of_mem _ (ih w p h)

/-- The artifact loop depends only on the dry-run and verbose flags of the
context, never on its project home, hook glob or parsed options. -/
theorem cleanRunT_flags (ctx₁ ctx₂ : PublishCommandHandlerContext)
    (hd : ctx₁.isDryRun = ctx₂.isDryRun) (hv : ctx₁.isVerbose = ctx₂.isVerbose) :
    ∀ (L : List String) (w : World), cleanRunT w ctx₁ L = cleanRunT w ctx₂ L := by
  intro L
  induction L with
  | nil => intro w; rfl
  | cons f rest ih =>
    intro w
    simp only [cleanRunT, ← hd, ← hv]
    by_cases he : existsSync w (joinPath w.cwd f) <;>
      by_cases hdr : ctx₁.isDryRun <;> simp [he, hdr, ih]

/-- The shell step of a lifecycle operation never removes a file. -/
theorem shell_step_no_remove (ctx : PublishCommandHandlerContext) (cmd : String) :
    (reportShellCmd ctx cmd ++ runShellCommand cmd ctx.isDryRun).all
      (fun e => !e.isFsRemove) = true := by
  by_cases hv : ctx.isVerbose && !ctx.isDryRun <;>
    by_cases hd : ctx.isDryRun <;>
      simp [reportShellCmd, runShellCommand, hv, hd, Event.isFsRemove]

/-- A trace without dry-forbidden events has no removal events. -/
theorem all_not_dryForbidden_no_remove (t : List Event)
    (h : t.all (fun e => !e.dryForbidden) = true) :
    t.all (fun e => !e.isFsRemove) = true := by
  rw [List.all_eq_true] at h ⊢
  intro e he
  have := h e he
  cases e <;> simp_all [Event.dryForbidden, Event.isFsRemove]

/-- In a dry run the hook loop emits no dry-forbidden event. -/
theorem runHookEntries_dry_noFx (w : World) (ctx : PublishCommandHandlerContext)
    (step : BuildLifecycleStep) (hd : ctx.isDryRun = true) :
    ∀ es : List GlobEntry,
      (runHookEntries w ctx step es).2.1.all (fun e => !e.dryForbidden) = true := by
  intro es
  induction es with
  | nil => rfl
  | cons we rest ih =>
    cases hf : we.isFile with
    | false => simp [runHookEntries, hf, ih]
    | true =>
      cases hm : w.loadModule (fileUrl we.path) with
      | error msg =>
        simpa [runHookEntries, hf, hm, Event.dryForbidden] using ih
      | ok m =>
        simpa [runHookEntries, hf, hm, hd, Event.dryForbidden] using ih

/-- In a dry run the hook loop leaves no pending hook work: no default
function is ever invoked. -/
theorem runHookEntries_dry_pending (w : World) (ctx : PublishCommandHandlerContext)
    (step : BuildLifecycleStep) (hd : ctx.isDryRun = true) :
    ∀ es : List GlobEntry, (runHookEntries w ctx step es).2.2 = [] := by
  intro es
  induction es with
  | nil => rfl
  | cons we rest ih =>
    cases hf : we.isFile with
    | false => simp [runHookEntries, hf, ih]
    | true =>
      cases hm : w.loadModule (fileUrl we.path) with
      | error msg => simp [runHookEntries, hf, hm, ih]
      | ok m => simp [runHookEntries, hf, hm, hd, ih]

/-- In a dry run the load of every regular-file entry is still attempted,
and a successful load is still reported. -/
theorem runHookEntries_dry_loads (w : World) (ctx : PublishCommandHandlerContext)
    (step : BuildLifecycleStep) (hd : ctx.isDryRun = true) :
    ∀ (es : List GlobEntry) (we : GlobEntry), we ∈ es → we.isFile = true →
      Event.loadAttempt (fileUrl we.path) ∈ (runHookEntries w ctx step es).2.1 ∧
      ∀ m, w.loadModule (fileUrl we.path) = Except.ok m →
        Event.logImport step (relativePath ctx.projectHome we.path) ∈
          (runHookEntries w ctx step es).2.1 := by
  intro es
  induction es with
  | nil => intro we h; cases h
  | cons we0 rest ih =>
    intro we hmem hfile
    rcases List.mem_cons.mp hmem with heq | htail
    · subst heq
      cases hm : w.loadModule (fileUrl we.path) with
      | error msg =>
        refine ⟨?_, fun m hm2 => ?_⟩
        · simp [runHookEntries, hfile, hm]
        · simp [hm] at hm2
      | ok m =>
        constructor
        · simp [runHookEntries, hfile, hm, hd]
        · intro m2 _
          simp [runHookEntries, hfile, hm, hd]
    · have htl := ih we htail hfile
      cases hf0 : we0.isFile with
      | false =>
        simpa [runHookEntries, hf0] using htl
      | true =>
        cases hm0 : w.loadModule (fileUrl we0.path) with
        | error msg =>
          have h1 := htl.1
          refine ⟨?_, fun m hm2 => ?_⟩
          · simp [runHookEntries, hf0, hm0]
            tauto
          · have h2 := htl.2 m hm2
            simp [runHookEntries, hf0, hm0]
            tauto
        | ok m0 =>
          have h1 := htl.1
          refine ⟨?_, fun m hm2 => ?_⟩
          · simp [runHookEntries, hf0, hm0, hd]
            tauto
          · have h2 := htl.2 m hm2
            simp [runHookEntries, hf0, hm0, hd]
            tauto

/-!
C1.  First-match dispatch.
-/

/-- C1: the claim fails on the source.  With a custom handler that claims
the request, the dispatcher still invokes every one of the five built-in
handlers (the source runs the built-in loop unconditionally after the
custom loop) and, since none of them claims, ends by logging the unhandled
diagnostic — while the later custom handler is indeed never invoked. -/
theorem cli_first_match_violation :
    (CLI wDispatch chsCustomClaim).2.1 =
      [Event.invokeCustom 0, Event.note "custom-claimed",
       Event.invokeBuiltin "prepare-build", Event.invokeBuiltin "build",
       Event.invokeBuiltin "clean", Event.invokeBuiltin "update",
       Event.invokeBuiltin "version", Event.unableToHandle] := by
  decide

/-!
C2.  Hook location root.
-/

/-- C2 counterexample: discovery is not a function of pattern and project
root — rooted at a working directory that differs from the project root it
returns paths the project-root-anchored locator of the specification does
not. -/
theorem hook_locator_not_root_anchored :
    hookDiscoveryPaths globRootWorld ctxOtherHome ≠
      specHookLocate globRootWorld ctxOtherHome.projectHome
        ctxOtherHome.buildLifecyleHandlerGlob := by
  decide

/-- C2 amended: hook discovery is rooted at the process working directory,
not the project root; it yields exactly the regular-file paths of the
expansion there (directories excluded), coincides with the project-rooted
locator of the specification precisely when the working directory is the
project root, and both users of discovery derive their relative name lists
from it. -/
theorem hook_locator_cwd_rooted (w : World) (ctx : PublishCommandHandlerContext)
    (step : BuildLifecycleStep) :
    hookDiscoveryPaths w ctx =
      specHookLocate w w.cwd ctx.buildLifecyleHandlerGlob ∧
    (∀ p, p ∈ hookDiscoveryPaths w ctx → ∃ we,
        we ∈ w.expandGlob w.cwd ctx.buildLifecyleHandlerGlob ∧
          we.isFile = true ∧ we.path = p) ∧
    (w.cwd = ctx.projectHome →
      hookDiscoveryPaths w ctx =
        specHookLocate w ctx.projectHome ctx.buildLifecyleHandlerGlob) ∧
    getPrepareBuildSubmoduleRelNames w ctx =
      (hookDiscoveryPaths w ctx).map (relativePath ctx.projectHome) ∧
    (handleProjectBuildHooks w ctx step).1 =
      (hookDiscoveryPaths w ctx).map (relativePath ctx.projectHome) := by
  refine ⟨rfl, ?_, ?_, ?_, ?_⟩
  · intro p hp
    simp only [hookDiscoveryPaths, List.mem_map, List.mem_filter] at hp
    obtain ⟨we, ⟨hmem, hfile⟩, hpath⟩ := hp
    exact ⟨we, hmem, hfile, hpath⟩
  · intro h
    rw [← h]
    exact rfl
  · simp [getPrepareBuildSubmoduleRelNames, hookDiscoveryPaths, List.map_map,
      Function.comp]
  · rw [handleProjectBuildHooks, runHookEntries_names]
    simp [hookDiscoveryPaths, List.map_map, Function.comp]

/-- C2 amended witness: at a world whose working directory is the project
root, discovery agrees with the specification locator. -/
theorem hook_locator_cwd_rooted_witness :
    hookDiscoveryPaths wDispatch ctxAtCwd =
      specHookLocate wDispatch ctxAtCwd.projectHome
        ctxAtCwd.buildLifecyleHandlerGlob :=
  (hook_locator_cwd_rooted wDispatch ctxAtCwd BuildLifecycleStep.prepare).2.2.1 rfl

/-!
C3.  Sequential hook completion.
-/

/-- C3: the claim fails on the source.  The default function of the single
prepare hook is invoked but its promise is never awaited: its remaining
work is still pending when the generation shell command runs and when the
whole `build()` chain ends, so prepare hooks are not complete before the
generation command starts. -/
theorem build_does_not_await_hooks :
    build hookWorldAsync ctxAtP =
      ([Event.loadAttempt "file:///p/sub/pubctl-hook-build.ts",
        Event.hookInvoked BuildLifecycleStep.prepare "sub/pubctl-hook-build.ts",
        Event.shellExec "hugox",
        Event.loadAttempt "file:///p/sub/pubctl-hook-build.ts",
        Event.hookInvoked BuildLifecycleStep.finalize "sub/pubctl-hook-build.ts"],
       [Event.hookAsyncFx "sub/pubctl-hook-build.ts" "write-generated-assets",
        Event.hookAsyncFx "sub/pubctl-hook-build.ts" "write-generated-assets"]) := by
  decide

/-!
C4.  Per-hook failure isolation.
-/

/-- C4: the claim fails on the source.  Over three hooks — a failing load,
a default function that rejects, and a well-behaved hook — every relative
name is returned in discovery order, the load failure is caught and logged,
and the later hook still runs; but the rejection of the second hook's
default function is not caught at the per-hook boundary: the promise is
never awaited there, so the rejection is still pending when
`handleProjectBuildHooks` returns. -/
theorem hook_rejection_escapes :
    handleProjectBuildHooks hookWorldMixed ctxAtP BuildLifecycleStep.prepare =
      (["bad/pubctl-hook-build.ts", "rej/pubctl-hook-build.ts",
        "good/pubctl-hook-build.ts"],
       [Event.loadAttempt "file:///p/bad/pubctl-hook-build.ts",
        Event.logHookError "bad/pubctl-hook-build.ts" "SyntaxError",
        Event.loadAttempt "file:///p/rej/pubctl-hook-build.ts",
        Event.hookInvoked BuildLifecycleStep.prepare "rej/pubctl-hook-build.ts",
        Event.loadAttempt "file:///p/good/pubctl-hook-build.ts",
        Event.hookInvoked BuildLifecycleStep.prepare "good/pubctl-hook-build.ts",
        Event.hookFx "good/pubctl-hook-build.ts" "good-side-effect"],
       [Event.hookRejected "rej/pubctl-hook-build.ts"]) := by
  decide

/-!
C8.  Empty hook set.
-/

/-- C8: when the hook glob matches no regular file, `prepareBuild` and
`finalizeBuild` return an empty list, attempt no load and invoke no hook. -/
theorem empty_hook_set (w : World) (ctx : PublishCommandHandlerContext)
    (h : (w.expandGlob w.cwd ctx.buildLifecyleHandlerGlob).filter
      (fun we => we.isFile) = []) :
    prepareBuild w ctx = ([], [], []) ∧ finalizeBuild w ctx = ([], [], []) :=
  ⟨runHookEntries_no_files w ctx BuildLifecycleStep.prepare _ h,
   runHookEntries_no_files w ctx BuildLifecycleStep.finalize _ h⟩

/-- C8 witness: a world whose glob expansion is empty. -/
theorem empty_hook_set_witness :
    prepareBuild wDispatch ctxAtCwd = ([], [], []) ∧
      finalizeBuild wDispatch ctxAtCwd = ([], [], []) :=
  empty_hook_set wDispatch ctxAtCwd rfl

/-!
C9.  Verbose implied by dry-run.
-/

/-- C9: a context constructed with the dry-run flag set is verbose and
dry-run whatever the verbose flag; without dry-run, verbosity equals the
verbose flag. -/
theorem verbose_implied_by_dry_run (w : World) (ph : Option String)
    (v : String) (cli : DocOptions) :
    (cli.dryRun = true →
      (PublishCommandHandlerContext.make w ph v cli).isVerbose = true ∧
      (PublishCommandHandlerContext.make w ph v cli).isDryRun = true) ∧
    (cli.dryRun = false →
      (PublishCommandHandlerContext.make w ph v cli).isVerbose = cli.verbose) := by
  constructor <;> intro h <;> simp [PublishCommandHandlerContext.make, h]

/-- C9 witness: dry-run set and verbose unset still yields a verbose
context. -/
theorem verbose_implied_by_dry_run_witness :
    (PublishCommandHandlerContext.make wDispatch none "v1"
      { dryRun := true }).isVerbose = true :=
  ((verbose_implied_by_dry_run wDispatch none "v1" { dryRun := true }).1 rfl).1

/-!
C5.  Dry-run effect freedom.
-/

/-- A dry-run variant of the project-home context. -/
def ctxDryAtP : PublishCommandHandlerContext :=
  { ctxAtP with isDryRun := true, isVerbose := true }

/-- C5: on a dry-run context, every lifecycle operation is free of real
effects — no shell execution, no filesystem removal, no hook invocation and
no pending hook work — while hook loads are still attempted and reported
and intended deletions are still logged. -/
theorem dry_run_invariant (w : World) (ctx : PublishCommandHandlerContext)
    (hd : ctx.isDryRun = true) :
    dryPure (prepareBuild w ctx) ∧
    dryPure (finalizeBuild w ctx) ∧
    ((build w ctx).1.all (fun e => !e.dryForbidden) = true ∧
      (build w ctx).2 = []) ∧
    (update w ctx).all (fun e => !e.dryForbidden) = true ∧
    (∀ t w2, cleanE w ctx = Except.ok (t, w2) →
      t.all (fun e => !e.dryForbidden) = true ∧ w2.files = w.files ∧
      ∀ f ∈ cleanArtifacts, existsSync w (joinPath w.cwd f) = true →
        Event.logDelete f ∈ t) ∧
    (∀ we ∈ w.expandGlob w.cwd ctx.buildLifecyleHandlerGlob, we.isFile = true →
      Event.loadAttempt (fileUrl we.path) ∈ (prepareBuild w ctx).2.1 ∧
      ∀ m, w.loadModule (fileUrl we.path) = Except.ok m →
        Event.logImport BuildLifecycleStep.prepare
          (relativePath ctx.projectHome we.path) ∈ (prepareBuild w ctx).2.1) := by
  have hookAll : ∀ step : BuildLifecycleStep,
      (handleProjectBuildHooks w ctx step).2.1.all
        (fun e => !e.dryForbidden) = true := fun step =>
    runHookEntries_dry_noFx w ctx step hd
      (w.expandGlob w.cwd ctx.buildLifecyleHandlerGlob)
  have hookPend : ∀ step : BuildLifecycleStep,
      (handleProjectBuildHooks w ctx step).2.2 = [] := fun step =>
    runHookEntries_dry_pending w ctx step hd
      (w.expandGlob w.cwd ctx.buildLifecyleHandlerGlob)
  have hshell : ∀ cmd : String,
      (reportShellCmd ctx cmd ++ runShellCommand cmd ctx.isDryRun).all
        (fun e => !e.dryForbidden) = true := by
    intro cmd
    simp [reportShellCmd, runShellCommand, hd, Event.dryForbidden]
  refine ⟨⟨hookAll _, hookPend _⟩, ⟨hookAll _, hookPend _⟩, ⟨?_, ?_⟩, ?_, ?_, ?_⟩
  · simp only [build, prepareBuild, finalizeBuild]
    rw [List.all_append, List.all_append, hookAll, hookAll, hshell "hugox"]
    rfl
  · simp only [build, prepareBuild, finalizeBuild]
    rw [hookPend, hookPend]
    rfl
  · simp only [update]
    simp [reportShellCmd, runShellCommand, hd, Event.dryForbidden]
  · intro t w2 h
    rw [cleanE_eq_run] at h
    simp only [Except.ok.injEq, Prod.mk.injEq] at h
    obtain ⟨ht, hw⟩ := h
    subst ht
    subst hw
    obtain ⟨hworld, hall, hdel⟩ := cleanRunT_dry ctx hd cleanArtifacts w
    refine ⟨?_, ?_, ?_⟩
    · rw [List.all_append, hshell "hugox mod clean --all", hall]
      rfl
    · rw [hworld]
    · intro f hf hex
      exact List.mem_append.mpr (Or.inr (hdel f hf hex))
  · intro we hwe hfile
    exact runHookEntries_dry_loads w ctx BuildLifecycleStep.prepare hd
      (w.expandGlob w.cwd ctx.buildLifecyleHandlerGlob) we hwe hfile

/-- C5 witness: a dry-run context over a world with one hook file. -/
theorem dry_run_invariant_witness :
    dryPure (prepareBuild hookWorldAsync ctxDryAtP) :=
  (dry_run_invariant hookWorldAsync ctxDryAtP rfl).1

/-!
C6.  Dispatcher exception boundary.
-/

/-- A world whose argument parsing throws. -/
def wParseError : World :=
  { cwd := "/w"
    expandGlob := fun _ _ => []
    loadModule := fun _ => Except.error "unused"
    parseOpts := Except.error "Usage: pubctl" }

/-- C6: any error escaping the dispatch body — parsing, context
construction, or a handler — is caught by the surrounding try of `CLI`: the
message is logged as the final event and `CLI` returns normally (its result
type carries no error case). -/
theorem cli_catches_dispatch_errors (w : World) (chs : CommandHandlerSpecOptions)
    (msg : String) (h : (CLIdispatch w chs).2.2.2 = Except.error msg) :
    CLI w chs = ((CLIdispatch w chs).1,
      (CLIdispatch w chs).2.1 ++ [Event.consoleError msg],
      (CLIdispatch w chs).2.2.1) := by
  simp [CLI, h]

/-- C6 witness: a parse error is logged and `CLI` returns normally. -/
theorem cli_catches_dispatch_errors_witness :
    CLI wParseError { version := "v1" } =
      (wParseError, [Event.consoleError "Usage: pubctl"], []) :=
  cli_catches_dispatch_errors wParseError { version := "v1" } "Usage: pubctl" rfl

/-!
C7.  Idempotence of clean.
-/

/-- C7: `clean()` never throws, and a second invocation performs no removal
and changes no file — every already-absent target is skipped silently. -/
theorem clean_idempotent (w : World) (ctx : PublishCommandHandlerContext) :
    (∃ r, cleanE w ctx = Except.ok r) ∧
    ∀ t1 w1 t2 w2, cleanE w ctx = Except.ok (t1, w1) →
      cleanE w1 ctx = Except.ok (t2, w2) →
      t2.all (fun e => !e.isFsRemove) = true ∧ w2.files = w1.files := by
  constructor
  · exact ⟨_, cleanE_eq_run w ctx⟩
  · intro t1 w1 t2 w2 h1 h2
    rw [cleanE_eq_run] at h1 h2
    simp only [Except.ok.injEq, Prod.mk.injEq] at h1 h2
    obtain ⟨ht1, hw1⟩ := h1
    subst ht1
    subst hw1
    obtain ⟨ht2, hw2⟩ := h2
    subst ht2
    subst hw2
    by_cases hd : ctx.isDryRun
    · obtain ⟨hworld, hall, _⟩ :=
        cleanRunT_dry ctx hd cleanArtifacts (cleanRunT w ctx cleanArtifacts).2
      constructor
      · rw [List.all_append, shell_step_no_remove ctx "hugox mod clean --all",
          all_not_dryForbidden_no_remove _ hall]
        rfl
      · rw [hworld]
    · have hd2 : ctx.isDryRun = false := by simpa using hd
      have hcwd := (cleanRunT_world ctx cleanArtifacts w).1
      have habs : ∀ f ∈ cleanArtifacts,
          existsSync (cleanRunT w ctx cleanArtifacts).2
            (joinPath (cleanRunT w ctx cleanArtifacts).2.cwd f) = false := by
        intro f hf
        have hnot := cleanRunT_removes ctx hd2 cleanArtifacts w f hf
        rw [existsSync, hcwd]
        cases hc : (cleanRunT w ctx cleanArtifacts).2.files.contains
            (joinPath w.cwd f) with
        | false => rfl
        | true => exact absurd (List.elem_iff.mp hc) hnot
      rw [cleanRunT_skips ctx cleanArtifacts _ habs]
      constructor
      · rw [List.all_append, shell_step_no_remove ctx "hugox mod clean --all"]
        rfl
      · rfl

/-- C7 witness: on a world with no artifact present, both invocations
succeed and the second removes nothing. -/
theorem clean_idempotent_witness :
    (∃ r, cleanE wDispatch ctxAtCwd = Except.ok r) ∧
    ([Event.shellExec "hugox mod clean --all"].all
      (fun e => !e.isFsRemove) = true ∧
      wDispatch.files = wDispatch.files) :=
  ⟨(clean_idempotent wDispatch ctxAtCwd).1,
   (clean_idempotent wDispatch ctxAtCwd).2
     [Event.shellExec "hugox mod clean --all"] wDispatch
     [Event.shellExec "hugox mod clean --all"] wDispatch rfl rfl⟩

/-!
C10.  Clean resolves its targets against the working directory.
-/

/-- C10: `clean()` reads none of the project-specific context fields — two
contexts agreeing on the dry-run and verbose flags (but with any project
homes) produce identical clean runs — and every path it removes is an
artifact name resolved against the process working directory. -/
theorem clean_ignores_project_home (w : World)
    (ctx₁ ctx₂ : PublishCommandHandlerContext)
    (hdr : ctx₁.isDryRun = ctx₂.isDryRun)
    (hv : ctx₁.isVerbose = ctx₂.isVerbose) :
    cleanE w ctx₁ = cleanE w ctx₂ ∧
    ∀ t w2 p, cleanE w ctx₁ = Except.ok (t, w2) → Event.fsRemove p ∈ t →
      p ∈ cleanArtifacts.map (joinPath w.cwd) := by
  constructor
  · rw [cleanE_eq_run, cleanE_eq_run]
    simp only [reportShellCmd, runShellCommand, hdr, hv,
      cleanRunT_flags ctx₁ ctx₂ hdr hv]
  · intro t w2 p h hp
    rw [cleanE_eq_run] at h
    simp only [Except.ok.injEq, Prod.mk.injEq] at h
    obtain ⟨ht, hw⟩ := h
    subst ht
    rcases List.mem_append.mp hp with hsh | hrun
    · have hall := shell_step_no_remove ctx₁ "hugox mod clean --all"
      rw [List.all_eq_true] at hall
      have := hall _ hsh
      simp [Event.isFsRemove] at this
    · exact cleanRunT_remove_targets ctx₁ cleanArtifacts w p hrun

/-- C10 witness: changing only the project home leaves the clean run
unchanged. -/
theorem clean_ignores_project_home_witness :
    cleanE wDispatch ctxAtCwd = cleanE wDispatch ctxOtherHome :=
  (clean_ignores_project_home wDispatch ctxAtCwd ctxOtherHome rfl rfl).1

end HugoAide
